import Mathlib

/-!
# Verification of the Highgarden download engine
Shallow embedding of `src-tauri/src/download/manager.rs`: the task data
model, the task-store operations (`create_task`, `start_task`'s resume
reconciliation, `pause_task`, `cancel_task`, `load_persisted`, `persist`),
the chunk transfer worker's request/file-write behaviour, and the checksum
verifier.  Machine integers (`u64`, `usize`) are modelled as `Nat`;
`f64` values are modelled as `ℚ`; fallible operations return `Except`.
-/

set_option autoImplicit false

/-- Embeds `enum DownloadStatus` (manager.rs lines 19-26). -/
inductive DownloadStatus where
  | pending
  | downloading
  | paused
  | verifying
  | completed
  | error
  deriving DecidableEq, Repr

/-- Embeds `struct DownloadChunk` (manager.rs lines 30-37).  The Rust field
`end` is a Lean keyword, embedded as `end_`. -/
structure DownloadChunk where
  id : Nat
  url : String
  start : Nat
  end_ : Nat
  downloaded : Nat
  completed : Bool
  deriving DecidableEq, Repr

/-- Embeds `struct DownloadTask` (manager.rs lines 41-56).  `progress: f64`
is modelled as `ℚ`. -/
structure DownloadTask where
  id : String
  game_id : String
  name : String
  dest_path : String
  total_size : Nat
  downloaded_size : Nat
  progress : ℚ
  speed : Nat
  status : DownloadStatus
  error : Option String
  created_at : Nat
  chunks : List DownloadChunk
  sha256 : Option String
  md5 : Option String
  deriving DecidableEq, Repr

/-- Embeds `struct DownloadProgress` (manager.rs lines 60-68). -/
structure DownloadProgress where
  task_id : String
  downloaded_size : Nat
  total_size : Nat
  progress : ℚ
  speed : Nat
  status : DownloadStatus
  error : Option String
  deriving DecidableEq, Repr

/-- The manager's task table `HashMap<String, DownloadTask>`, embedded as an
association list with unique keys maintained by the operations below. -/
def TaskMap := List (String × DownloadTask)

instance : DecidableEq TaskMap := by
  unfold TaskMap
  infer_instance

/-- Embeds `HashMap::get` on the task table. -/
def lookupTask : TaskMap → String → Option DownloadTask
  | [], _ => none
  | (i, t) :: rest, id => if i = id then some t else lookupTask rest id

/-- Embeds `HashMap::insert`: replaces the entry with the given key, or
appends a fresh one. -/
def insertTask : TaskMap → String → DownloadTask → TaskMap
  | [], id, t => [(id, t)]
  | (i, u) :: rest, id, t =>
    if i = id then (i, t) :: rest else (i, u) :: insertTask rest id t

/-- Embeds `HashMap::remove` (used by `cancel_task`, manager.rs line 615). -/
def eraseTask : TaskMap → String → TaskMap
  | [], _ => []
  | (i, u) :: rest, id => if i = id then rest else (i, u) :: eraseTask rest id

/-- Embeds `HashMap::get_mut` followed by a mutation of the found task; a
no-op when the key is absent. -/
def updateTask : TaskMap → String → (DownloadTask → DownloadTask) → TaskMap
  | [], _, _ => []
  | (i, t) :: rest, id, f =>
    if i = id then (i, f t) :: rest else (i, t) :: updateTask rest id f

/-- The `matches!(t.status, DownloadStatus::Completed | DownloadStatus::Error)`
filter condition of `persist` (manager.rs line 142). -/
def isTerminal (s : DownloadStatus) : Bool :=
  s = DownloadStatus.completed ∨ s = DownloadStatus.error

/-- Embeds the document built by `DownloadManager::persist` (manager.rs
lines 135-152) and by the inline persist after worker completion (lines
340-351): the current tasks with Completed and Error entries filtered out. -/
def persistDoc (tasks : TaskMap) : TaskMap :=
  tasks.filter (fun p => ¬ isTerminal p.2.status)

/-- Embeds the demotion applied by `load_persisted` (manager.rs lines
120-128): a task saved as Downloading or Verifying is reset to Paused with
speed 0; any other task is kept as saved. -/
def demoteStale (t : DownloadTask) : DownloadTask :=
  if t.status = DownloadStatus.downloading ∨ t.status = DownloadStatus.verifying then
    { t with status := DownloadStatus.paused, speed := 0 }
  else t

/-- Embeds the insertion loop of `load_persisted` (manager.rs lines
120-129): every saved task is demoted if stale and inserted into the store. -/
def load_persisted_insert (saved : TaskMap) (store : TaskMap) : TaskMap :=
  saved.foldl (fun acc p => insertTask acc p.1 (demoteStale p.2)) store

/-- Embeds `load_persisted` (manager.rs lines 110-132) on a file that exists:
`serde_json::from_str(&raw).unwrap_or_default()` is modelled by an abstract
`parse` function whose failure yields the empty map, and the whole call
returns `Ok`. -/
def load_persisted_run (parse : String → Option TaskMap) (raw : String)
    (store : TaskMap) : Except String TaskMap :=
  Except.ok (load_persisted_insert ((parse raw).getD []) store)

/-- Embeds `pause_task` (manager.rs lines 594-607): unconditionally sets the
found task's status to Paused and its speed to 0, then returns `Ok(())`.
The new table and the result are returned. -/
def pause_task (tasks : TaskMap) (task_id : String) :
    TaskMap × Except String Unit :=
  (updateTask tasks task_id
    (fun t => { t with status := DownloadStatus.paused, speed := 0 }),
   Except.ok ())

/-- Embeds `cancel_task` (manager.rs lines 609-619): removes the task from
the table and returns `Ok(())`. -/
def cancel_task (tasks : TaskMap) (task_id : String) :
    TaskMap × Except String Unit :=
  (eraseTask tasks task_id, Except.ok ())

/-- Embeds the single chunk built by `create_task` (manager.rs lines
206-213): one chunk spanning `[0, total_size.saturating_sub(1)]`. -/
def mkChunks (url : String) (total_size : Nat) : List DownloadChunk :=
  [{ id := 0, url := url, start := 0, end_ := total_size - 1,
     downloaded := 0, completed := false }]

/-- Embeds the task record built by `create_task` (manager.rs lines
223-238). -/
def create_task_record (game_id name url dest_path : String)
    (total_size : Nat) (sha256 md5 : Option String)
    (task_id : String) (now : Nat) : DownloadTask :=
  { id := task_id
    game_id := game_id
    name := name
    dest_path := dest_path
    total_size := total_size
    downloaded_size := 0
    progress := 0
    speed := 0
    status := DownloadStatus.pending
    error := none
    created_at := now
    chunks := mkChunks url total_size
    sha256 := sha256
    md5 := md5 }

/-- Embeds the store mutation of `create_task` (manager.rs line 240). -/
def create_task (tasks : TaskMap) (game_id name url dest_path : String)
    (total_size : Nat) (sha256 md5 : Option String)
    (task_id : String) (now : Nat) : TaskMap :=
  insertTask tasks task_id
    (create_task_record game_id name url dest_path total_size sha256 md5
      task_id now)

/-- Embeds the mutation of chunk 0 during resume reconciliation in
`start_task` (manager.rs lines 268-271): `c.downloaded = on_disk;
c.completed = false;` on `chunks.get_mut(0)`, a no-op on an empty list. -/
def setChunk0Resume (chunks : List DownloadChunk) (on_disk : Nat) :
    List DownloadChunk :=
  match chunks with
  | [] => []
  | c :: rest => { c with downloaded := on_disk, completed := false } :: rest

/-- Embeds the synchronous part of `start_task` on the found task
(manager.rs lines 255-278): status is set to Downloading, then the on-disk
file length (`none` when `fs::metadata` fails) drives resume
reconciliation. -/
def start_task_reconcile (t : DownloadTask) (on_disk : Option Nat) :
    DownloadTask :=
  let t := { t with status := DownloadStatus.downloading }
  match on_disk with
  | none => t
  | some k =>
    if 0 < k ∧ k < t.total_size then
      { t with chunks := setChunk0Resume t.chunks k,
               downloaded_size := k,
               progress := min ((k : ℚ) / (t.total_size : ℚ) * 100) 100 }
    else if 0 < t.total_size ∧ t.total_size ≤ k then
      { t with status := DownloadStatus.completed, progress := 100 }
    else t

/-- The HTTP request issued by `download_chunk` (manager.rs lines 460-476):
either no request at all (chunk already complete), or a GET carrying an
optional byte-range header. -/
inductive ChunkRequest where
  | skip
  | get (range : Option (Nat × Nat))
  deriving DecidableEq, Repr

/-- Embeds the request decision of `download_chunk` (manager.rs lines
460-476): `range_start = chunk.start + chunk.downloaded`; skip when the
remaining range is empty; attach `bytes=range_start-range_end` only when
`range_start > 0`. -/
def chunk_request (chunk : DownloadChunk) : ChunkRequest :=
  let range_start := chunk.start + chunk.downloaded
  let range_end := chunk.end_
  if range_start > range_end then ChunkRequest.skip
  else if range_start > 0 then ChunkRequest.get (some (range_start, range_end))
  else ChunkRequest.get none

/-- POSIX write of `data` into `file` at byte offset `pos`: the gap between
the end of the file and `pos` reads back as zero bytes. -/
def writeAt (file : List Nat) (pos : Nat) (data : List Nat) : List Nat :=
  file.take pos ++ List.replicate (pos - file.length) 0 ++ data
    ++ file.drop (pos + data.length)

/-- Sequential writes of the streamed buffers starting at `pos`, as the
`while let Some(item) = stream.next()` loop performs them (manager.rs
lines 528-574). -/
def streamWrite (file : List Nat) (pos : Nat) (stream : List (List Nat)) :
    List Nat :=
  match stream with
  | [] => file
  | d :: rest => streamWrite (writeAt file pos d) (pos + d.length) rest

/-- Embeds the destination-file effect of `download_chunk` (manager.rs
lines 460-592): a skipped chunk leaves the file untouched; otherwise the
file is opened with `truncate(true)` (line 516), which empties it, the
handle seeks to `chunk.start + chunk.downloaded` (line 521), and the
streamed buffers are written sequentially from there. -/
def download_chunk_file (origFile : List Nat) (chunk : DownloadChunk)
    (stream : List (List Nat)) : List Nat :=
  if chunk.start + chunk.downloaded > chunk.end_ then origFile
  else streamWrite [] (chunk.start + chunk.downloaded) stream

/-- Embeds the speed computation of `download_chunk` (manager.rs lines
542-545): elapsed seconds clamped below at 0.001, session bytes =
`total_downloaded.saturating_sub(resume_offset)` (`Nat` subtraction
saturates), and the `as u64` cast truncates the quotient. -/
def report_speed (total_downloaded resume_offset : Nat) (elapsed : ℚ) : Nat :=
  let el := max elapsed (1 / 1000)
  (⌊((total_downloaded - resume_offset : Nat) : ℚ) / el⌋).toNat

/-- Embeds the progress computation of `download_chunk` (manager.rs lines
547-551). -/
def report_progress (total_downloaded total_size : Nat) : ℚ :=
  if 0 < total_size then
    min ((total_downloaded : ℚ) / (total_size : ℚ) * 100) 100
  else 0

/-- Modelled from the spec: `speed = bytes received during this resumed
session ÷ elapsed time`, the literal formula of spec §4.2, for comparison
with `report_speed`. -/
def specSpeed (total_downloaded resume_offset : Nat) (elapsed : ℚ) : ℚ :=
  ((total_downloaded : ℚ) - (resume_offset : ℚ)) / elapsed

/-- Embeds the chunk bookkeeping after stream exhaustion (manager.rs lines
584-587): the first chunk with the worker's id gets its final downloaded
count and `completed = true`. -/
def setChunkDone : List DownloadChunk → Nat → Nat → List DownloadChunk
  | [], _, _ => []
  | c :: cs, cid, d =>
    if c.id = cid then { c with downloaded := d, completed := true } :: cs
    else c :: setChunkDone cs cid d

/-- Embeds the task update at the end of `download_chunk` (manager.rs lines
582-589): record the chunk's final count and recompute `downloaded_size`
as the sum over chunks. -/
def chunk_finish (t : DownloadTask) (chunk_id chunk_downloaded : Nat) :
    DownloadTask :=
  let chunks := setChunkDone t.chunks chunk_id chunk_downloaded
  { t with chunks := chunks,
           downloaded_size := (chunks.map DownloadChunk.downloaded).sum }

/-- Lowercase hexadecimal digit for a nibble, as `hex::encode` and
`format!("{:x}")` render digests. -/
def hexDigit (n : Nat) : Char :=
  if n < 10 then Char.ofNat (48 + n) else Char.ofNat (97 + (n - 10))

/-- Lowercase hexadecimal rendering of a byte string (two digits per
byte), embedding `hex::encode` / `format!("{:x}", digest)`. -/
def hexEncode (bytes : List Nat) : String :=
  ⟨(bytes.map (fun b => [hexDigit (b / 16 % 16), hexDigit (b % 16)])).flatten⟩

/-- ASCII lowercasing of one character, as `u8::to_ascii_lowercase`. -/
def toLowerAscii (c : Char) : Char :=
  if 65 ≤ c.toNat ∧ c.toNat ≤ 90 then Char.ofNat (c.toNat + 32) else c

/-- Embeds `str::eq_ignore_ascii_case`. -/
def eqIgnoreAsciiCase (a b : String) : Bool :=
  a.data.map toLowerAscii = b.data.map toLowerAscii

/-- Embeds `verify_sha256` (manager.rs lines 646-661) applied to the digest
bytes the external `sha2` crate computed for the file: render lowercase
hex, compare case-insensitively, and on mismatch report both strings. -/
def verify_sha256 (digest : List Nat) (expected : String) :
    Except String Unit :=
  let actual := hexEncode digest
  if eqIgnoreAsciiCase actual expected then Except.ok ()
  else
    Except.error
      ("SHA256 mismatch: expected " ++ expected ++ ", got " ++ actual)

/-- Embeds `verify_md5` (manager.rs lines 663-677) applied to the digest
bytes the external `md5` crate computed for the file. -/
def verify_md5 (digest : List Nat) (expected : String) :
    Except String Unit :=
  let actual := hexEncode digest
  if eqIgnoreAsciiCase actual expected then Except.ok ()
  else
    Except.error ("MD5 mismatch: expected " ++ expected ++ ", got " ++ actual)

/-- Embeds the checksum-selection step of `run_download` (manager.rs lines
423-439): when either expected digest is present, verify SHA-256 first and
fall back to MD5 only when no SHA-256 value exists. -/
def run_verify (shaDigest md5Digest : List Nat) (sha256 md5 : Option String) :
    Except String Unit :=
  if sha256.isSome || md5.isSome then
    match sha256 with
    | some expected => verify_sha256 shaDigest expected
    | none =>
      match md5 with
      | some expected => verify_md5 md5Digest expected
      | none => Except.ok ()
  else Except.ok ()

/-! ## Association-list lemmas shared by the store theorems -/

theorem lookupTask_insertTask_self (m : TaskMap) (id : String)
    (t : DownloadTask) : lookupTask (insertTask m id t) id = some t := by
  induction m with
  | nil => simp [insertTask, lookupTask]
  | cons p rest ih =>
    obtain ⟨i, u⟩ := p
    by_cases h : i = id <;> simp [insertTask, lookupTask, h, ih]

theorem lookupTask_insertTask_ne (m : TaskMap) (id j : String)
    (t : DownloadTask) (h : id ≠ j) :
    lookupTask (insertTask m id t) j = lookupTask m j := by
  induction m with
  | nil => simp [insertTask, lookupTask, h]
  | cons p rest ih =>
    obtain ⟨i, u⟩ := p
    by_cases hij : i = id
    · subst hij
      simp [insertTask, lookupTask, h]
    · simp [insertTask, lookupTask, hij, ih]

theorem lookupTask_eq_none_of_not_mem (m : TaskMap) (id : String)
    (h : id ∉ m.map Prod.fst) : lookupTask m id = none := by
  induction m with
  | nil => rfl
  | cons p rest ih =>
    obtain ⟨i, u⟩ := p
    simp only [List.map_cons, List.mem_cons] at h
    push_neg at h
    have hne : ¬ i = id := fun hc => h.1 hc.symm
    simp [lookupTask, hne, ih h.2]

theorem updateTask_eq_self_of_lookup_none (m : TaskMap) (id : String)
    (f : DownloadTask → DownloadTask) (h : lookupTask m id = none) :
    updateTask m id f = m := by
  induction m with
  | nil => rfl
  | cons p rest ih =>
    obtain ⟨i, u⟩ := p
    by_cases hij : i = id
    · simp [lookupTask, hij] at h
    · simp only [lookupTask, hij, if_false] at h
      simp [updateTask, hij, ih h]

theorem eraseTask_eq_self_of_lookup_none (m : TaskMap) (id : String)
    (h : lookupTask m id = none) : eraseTask m id = m := by
  induction m with
  | nil => rfl
  | cons p rest ih =>
    obtain ⟨i, u⟩ := p
    by_cases hij : i = id
    · simp [lookupTask, hij] at h
    · simp only [lookupTask, hij, if_false] at h
      simp [eraseTask, hij, ih h]

theorem lookupTask_updateTask_self (m : TaskMap) (id : String)
    (f : DownloadTask → DownloadTask) :
    lookupTask (updateTask m id f) id = (lookupTask m id).map f := by
  induction m with
  | nil => rfl
  | cons p rest ih =>
    obtain ⟨i, u⟩ := p
    by_cases hij : i = id <;> simp [updateTask, lookupTask, hij, ih]

theorem updateTask_eq_self_of_fix (m : TaskMap) (id : String)
    (f : DownloadTask → DownloadTask) (t : DownloadTask)
    (hl : lookupTask m id = some t) (hf : f t = t) :
    updateTask m id f = m := by
  induction m with
  | nil => simp [lookupTask] at hl
  | cons p rest ih =>
    obtain ⟨i, u⟩ := p
    by_cases hij : i = id
    · simp only [lookupTask, hij, if_true] at hl
      obtain rfl : u = t := by injection hl
      simp [updateTask, hij, hf]
    · simp only [lookupTask, hij, if_false] at hl
      simp [updateTask, hij, ih hl]

theorem persistDoc_cons (i : String) (u : DownloadTask) (rest : TaskMap) :
    persistDoc ((i, u) :: rest)
      = if isTerminal u.status then persistDoc rest
        else (i, u) :: persistDoc rest := by
  by_cases ht : isTerminal u.status <;> simp [persistDoc, List.filter, ht]

theorem lookupTask_persistDoc_none (m : TaskMap) (id : String)
    (h : lookupTask m id = none) : lookupTask (persistDoc m) id = none := by
  induction m with
  | nil => rfl
  | cons p rest ih =>
    obtain ⟨i, u⟩ := p
    by_cases hij : i = id
    · simp [lookupTask, hij] at h
    · simp only [lookupTask, hij, if_false] at h
      by_cases ht : isTerminal u.status
      · simpa [persistDoc, List.filter, ht] using ih h
      · simpa [persistDoc, List.filter, ht, lookupTask, hij] using ih h

theorem load_persisted_insert_not_mem (saved store : TaskMap) (id : String)
    (h : id ∉ saved.map Prod.fst) :
    lookupTask (load_persisted_insert saved store) id = lookupTask store id := by
  induction saved generalizing store with
  | nil => rfl
  | cons p rest ih =>
    obtain ⟨j, u⟩ := p
    simp only [List.map_cons, List.mem_cons] at h
    push_neg at h
    have step : load_persisted_insert ((j, u) :: rest) store
        = load_persisted_insert rest (insertTask store j (demoteStale u)) := rfl
    rw [step, ih _ h.2, lookupTask_insertTask_ne _ _ _ _ (fun hc => h.1 hc.symm)]

/-! ## Sample tasks used by counterexamples and witnesses -/

/-- A task that has finished successfully, as `start_task`'s completion
branch leaves it. -/
def sampleCompletedTask : DownloadTask :=
  { id := "t1", game_id := "g", name := "n", dest_path := "/tmp/f",
    total_size := 10, downloaded_size := 10, progress := 100, speed := 0,
    status := DownloadStatus.completed, error := none, created_at := 0,
    chunks := [{ id := 0, url := "u", start := 0, end_ := 9,
                 downloaded := 10, completed := true }],
    sha256 := none, md5 := none }

/-- A task at rest in status Paused with speed 0. -/
def samplePausedTask : DownloadTask :=
  { id := "t2", game_id := "g", name := "n", dest_path := "/tmp/f",
    total_size := 10, downloaded_size := 4, progress := 40, speed := 0,
    status := DownloadStatus.paused, error := none, created_at := 0,
    chunks := [{ id := 0, url := "u", start := 0, end_ := 9,
                 downloaded := 4, completed := false }],
    sha256 := none, md5 := none }

/-! ## Claim theorems -/

/-- C3 counterexample: pausing a Completed task is not a no-op — the call
succeeds but the task's status changes, so the state is not left
unchanged as the claim requires. -/
theorem c3_cex :
    sampleCompletedTask.status = DownloadStatus.completed ∧
    (pause_task [("t1", sampleCompletedTask)] "t1").2 = Except.ok () ∧
    (pause_task [("t1", sampleCompletedTask)] "t1").1
      ≠ [("t1", sampleCompletedTask)] := by
  refine ⟨rfl, rfl, ?_⟩
  decide

/-- C3 (amended): `pause_task` always returns success; on a present task it
sets status Paused and speed 0 and changes nothing else, so it is a no-op
only on a task already Paused with speed 0 (and on absent ids); on
Completed and Error tasks it overwrites the status with Paused. -/
theorem c3_pause_amended (tasks : TaskMap) (id : String) :
    (pause_task tasks id).2 = Except.ok () ∧
    (∀ t, lookupTask tasks id = some t →
      lookupTask (pause_task tasks id).1 id
        = some { t with status := DownloadStatus.paused, speed := 0 }) ∧
    (∀ t, lookupTask tasks id = some t →
      t.status = DownloadStatus.paused → t.speed = 0 →
      (pause_task tasks id).1 = tasks) := by
  refine ⟨rfl, ?_, ?_⟩
  · intro t hl
    simp [pause_task, lookupTask_updateTask_self, hl]
  · intro t hl hs hsp
    apply updateTask_eq_self_of_fix _ _ _ t hl
    cases t
    simp_all

/-- C3 witness: the amended theorem applied to a concrete paused task and
to a concrete map. -/
theorem c3_witness :
    (pause_task [("t2", samplePausedTask)] "t2").2 = Except.ok () ∧
    (pause_task [("t2", samplePausedTask)] "t2").1
      = [("t2", samplePausedTask)] :=
  ⟨(c3_pause_amended [("t2", samplePausedTask)] "t2").1,
   (c3_pause_amended [("t2", samplePausedTask)] "t2").2.2 samplePausedTask
     rfl rfl rfl⟩

/-- C4: the persisted document contains exactly the tasks whose status is
neither Completed nor Error, keyed by task id and carrying the task's
current record (hence its current byte counts); ids of Completed and Error
tasks do not appear. -/
theorem c4_persist_filter (tasks : TaskMap)
    (hnd : (tasks.map Prod.fst).Nodup) (id : String) :
    lookupTask (persistDoc tasks) id =
      match lookupTask tasks id with
      | some t => if isTerminal t.status then none else some t
      | none => none := by
  induction tasks with
  | nil => rfl
  | cons p rest ih =>
    obtain ⟨i, u⟩ := p
    simp only [List.map_cons, List.nodup_cons] at hnd
    rw [persistDoc_cons]
    by_cases hij : i = id
    · subst hij
      by_cases ht : isTerminal u.status
      · have hrest : lookupTask rest i = none :=
          lookupTask_eq_none_of_not_mem rest i hnd.1
        simp [ht, lookupTask, lookupTask_persistDoc_none rest i hrest]
      · simp [ht, lookupTask]
    · by_cases ht : isTerminal u.status
      · simp only [ht, if_true]
        simpa [lookupTask, hij] using ih hnd.2
      · simp only [ht, if_false]
        simpa [lookupTask, hij] using ih hnd.2

/-- C4 witness: the characterization evaluated on a concrete two-task map,
one Completed (absent from the document) and one Paused (present). -/
theorem c4_witness :
    lookupTask (persistDoc [("t1", sampleCompletedTask),
        ("t2", samplePausedTask)]) "t1" = none ∧
    lookupTask (persistDoc [("t1", sampleCompletedTask),
        ("t2", samplePausedTask)]) "t2" = some samplePausedTask := by
  have h1 := c4_persist_filter [("t1", sampleCompletedTask),
    ("t2", samplePausedTask)] (by decide) "t1"
  have h2 := c4_persist_filter [("t1", sampleCompletedTask),
    ("t2", samplePausedTask)] (by decide) "t2"
  exact ⟨by rw [h1]; rfl, by rw [h2]; rfl⟩

/-- C5: loading a persisted task set inserts every saved task; a task saved
as Downloading or Verifying comes back Paused with speed 0 and all other
fields intact, and a task with any other saved status is inserted
unchanged. -/
theorem c5_load_persisted :
    (∀ (saved store : TaskMap) (id : String) (t : DownloadTask),
      (saved.map Prod.fst).Nodup →
      lookupTask saved id = some t →
      lookupTask (load_persisted_insert saved store) id
        = some (demoteStale t)) ∧
    (∀ t : DownloadTask,
      (t.status = DownloadStatus.downloading ∨
       t.status = DownloadStatus.verifying) →
      demoteStale t
        = { t with status := DownloadStatus.paused, speed := 0 }) ∧
    (∀ t : DownloadTask,
      ¬(t.status = DownloadStatus.downloading ∨
        t.status = DownloadStatus.verifying) →
      demoteStale t = t) := by
  refine ⟨?_, ?_, ?_⟩
  · intro saved
    induction saved with
    | nil => intro store id t _ hl; simp [lookupTask] at hl
    | cons p rest ih =>
      intro store id t hnd hl
      obtain ⟨j, u⟩ := p
      simp only [List.map_cons, List.nodup_cons] at hnd
      have step : load_persisted_insert ((j, u) :: rest) store
          = load_persisted_insert rest (insertTask store j (demoteStale u)) :=
        rfl
      by_cases hij : j = id
      · subst hij
        simp only [lookupTask, if_true] at hl
        obtain rfl : u = t := by injection hl
        rw [step, load_persisted_insert_not_mem _ _ _ hnd.1,
          lookupTask_insertTask_self]
      · simp only [lookupTask, hij, if_false] at hl
        rw [step]
        exact ih _ id t hnd.2 hl
  · intro t h
    simp [demoteStale, h]
  · intro t h
    simp [demoteStale, h]

/-- A task saved mid-transfer (status Downloading, nonzero speed). -/
def sampleDownloadingTask : DownloadTask :=
  { samplePausedTask with status := DownloadStatus.downloading, speed := 7 }

/-- The same task as `load_persisted` must restore it: Paused, speed 0. -/
def sampleDemotedTask : DownloadTask :=
  { samplePausedTask with status := DownloadStatus.paused, speed := 0 }

/-- C5 witness: a concrete saved map with one Downloading task, loaded into
an empty store, comes back Paused with speed 0. -/
theorem c5_witness :
    lookupTask (load_persisted_insert [("t2", sampleDownloadingTask)] [])
        "t2" = some sampleDemotedTask := by
  have h := c5_load_persisted.1 [("t2", sampleDownloadingTask)] [] "t2"
    sampleDownloadingTask (by decide) rfl
  rw [h]
  decide

/-- C9: when the persistence file exists but does not parse as the task
map, `load_persisted` still succeeds and the store receives no tasks from
it. -/
theorem c9_load_malformed (parse : String → Option TaskMap) (raw : String)
    (store : TaskMap) (h : parse raw = none) :
    load_persisted_run parse raw store = Except.ok store := by
  simp [load_persisted_run, h, load_persisted_insert]

/-- C9 witness: a parse function that rejects everything leaves a concrete
store untouched and returns success. -/
theorem c9_witness :
    load_persisted_run (fun _ => none) "not json"
        [("t2", samplePausedTask)]
      = Except.ok [("t2", samplePausedTask)] :=
  c9_load_malformed (fun _ => none) "not json" [("t2", samplePausedTask)] rfl

/-- C10: `pause_task` and `cancel_task` return success for every id, and on
an id absent from the store pause leaves the table unchanged and cancel
removes nothing. -/
theorem c10_unknown_id_ok (tasks : TaskMap) (id : String) :
    (pause_task tasks id).2 = Except.ok () ∧
    (cancel_task tasks id).2 = Except.ok () ∧
    (lookupTask tasks id = none →
      (pause_task tasks id).1 = tasks ∧ (cancel_task tasks id).1 = tasks) := by
  refine ⟨rfl, rfl, fun h => ⟨?_, ?_⟩⟩
  · exact updateTask_eq_self_of_lookup_none tasks id _ h
  · exact eraseTask_eq_self_of_lookup_none tasks id h

/-- C10 witness: both operations on an id not in a concrete one-task
store. -/
theorem c10_witness :
    (pause_task [("t2", samplePausedTask)] "zzz").2 = Except.ok () ∧
    (cancel_task [("t2", samplePausedTask)] "zzz").2 = Except.ok () ∧
    (pause_task [("t2", samplePausedTask)] "zzz").1
        = [("t2", samplePausedTask)] ∧
    (cancel_task [("t2", samplePausedTask)] "zzz").1
        = [("t2", samplePausedTask)] := by
  have h := c10_unknown_id_ok [("t2", samplePausedTask)] "zzz"
  exact ⟨h.1, h.2.1, (h.2.2 rfl).1, (h.2.2 rfl).2⟩

/-! ## Size invariant (C7) -/

/-- The spec's quiescent-point invariant:
`downloadedSize == Σ chunk.downloaded`. -/
def sizeInvariant (t : DownloadTask) : Prop :=
  t.downloaded_size = (t.chunks.map DownloadChunk.downloaded).sum

/-- C7: `downloadedSize = Σ chunk.downloaded` holds after task creation, is
preserved by `start_task`'s resume reconciliation on a single-chunk task,
is re-established by the chunk worker's completion bookkeeping, and is
preserved by the pause mutation. -/
theorem c7_size_invariant :
    (∀ (game_id name url dest_path : String) (total_size : Nat)
       (sha256 md5 : Option String) (task_id : String) (now : Nat),
      sizeInvariant (create_task_record game_id name url dest_path
        total_size sha256 md5 task_id now)) ∧
    (∀ (t : DownloadTask) (od : Option Nat) (c : DownloadChunk),
      t.chunks = [c] → sizeInvariant t →
      sizeInvariant (start_task_reconcile t od)) ∧
    (∀ (t : DownloadTask) (cid d : Nat),
      sizeInvariant (chunk_finish t cid d)) ∧
    (∀ t : DownloadTask, sizeInvariant t →
      sizeInvariant { t with status := DownloadStatus.paused, speed := 0 }) := by
  refine ⟨?_, ?_, ?_, ?_⟩
  · intro game_id name url dest_path total_size sha256 md5 task_id now
    simp [sizeInvariant, create_task_record, mkChunks]
  · intro t od c hc hi
    cases od with
    | none => simpa [start_task_reconcile, sizeInvariant] using hi
    | some k =>
      by_cases h1 : 0 < k ∧ k < t.total_size
      · simp [start_task_reconcile, h1, sizeInvariant, hc, setChunk0Resume]
      · by_cases h2 : 0 < t.total_size ∧ t.total_size ≤ k
        · simpa [start_task_reconcile, h1, h2, sizeInvariant] using hi
        · simpa [start_task_reconcile, h1, h2, sizeInvariant] using hi
  · intro t cid d
    simp [sizeInvariant, chunk_finish]
  · intro t hi
    simpa [sizeInvariant] using hi

/-- C7 witness: the reconciliation and pause clauses applied to a concrete
single-chunk task satisfying the invariant. -/
theorem c7_witness :
    sizeInvariant (start_task_reconcile samplePausedTask (some 6)) ∧
    sizeInvariant sampleDemotedTask :=
  ⟨c7_size_invariant.2.1 samplePausedTask (some 6)
      { id := 0, url := "u", start := 0, end_ := 9, downloaded := 4,
        completed := false } rfl rfl,
   c7_size_invariant.2.2.2 samplePausedTask rfl⟩

/-! ## Checksum verifier lemmas (C6) -/

/-- A character is a lowercase hexadecimal digit: `0`-`9` or `a`-`f`. -/
def isLowerHexChar (c : Char) : Prop :=
  (48 ≤ c.toNat ∧ c.toNat ≤ 57) ∨ (97 ≤ c.toNat ∧ c.toNat ≤ 102)

instance : DecidablePred isLowerHexChar := fun c => by
  unfold isLowerHexChar
  infer_instance

theorem hexDigit_lower : ∀ n < 16, isLowerHexChar (hexDigit n) := by decide

theorem hexEncode_data (bytes : List Nat) :
    (hexEncode bytes).data
      = (bytes.map (fun b => [hexDigit (b / 16 % 16), hexDigit (b % 16)])).flatten :=
  rfl

theorem hexEncode_lower (bytes : List Nat) :
    ∀ c ∈ (hexEncode bytes).data, isLowerHexChar c := by
  induction bytes with
  | nil => intro c hc; simp [hexEncode_data] at hc
  | cons b bs ih =>
    intro c hc
    rw [hexEncode_data] at hc
    simp only [List.map_cons, List.flatten_cons, List.mem_append,
      List.mem_cons, List.not_mem_nil, or_false] at hc
    rcases hc with (rfl | rfl) | hc
    · exact hexDigit_lower _ (Nat.mod_lt _ (by norm_num))
    · exact hexDigit_lower _ (Nat.mod_lt _ (by norm_num))
    · exact ih c (by rw [hexEncode_data]; exact hc)

/-- C6: when both a strong and a legacy checksum are supplied only the
SHA-256 one is verified (the MD5 digest and value are never consulted);
the computed digest is rendered as lowercase hex; verification succeeds
exactly when the rendering and the expected value agree up to ASCII case;
and a failure message carries both the expected and the actual digest
strings. -/
theorem c6_checksum :
    (∀ (shaD md5D : List Nat) (s m : String),
      run_verify shaD md5D (some s) (some m) = verify_sha256 shaD s) ∧
    (∀ (digest : List Nat), ∀ c ∈ (hexEncode digest).data, isLowerHexChar c) ∧
    (∀ (digest : List Nat) (expected : String),
      verify_sha256 digest expected = Except.ok () ↔
        eqIgnoreAsciiCase (hexEncode digest) expected = true) ∧
    (∀ (digest : List Nat) (expected : String),
      eqIgnoreAsciiCase (hexEncode digest) expected = false →
      ∃ pre mid, verify_sha256 digest expected
        = Except.error (pre ++ expected ++ mid ++ hexEncode digest)) := by
  refine ⟨?_, hexEncode_lower, ?_, ?_⟩
  · intro shaD md5D s m
    simp [run_verify]
  · intro digest expected
    by_cases h : eqIgnoreAsciiCase (hexEncode digest) expected <;>
      simp [verify_sha256, h]
  · intro digest expected h
    refine ⟨"SHA256 mismatch: expected ", ", got ", ?_⟩
    simp [verify_sha256, h]

/-- C6 witness: digest byte `0xab` renders as `"ab"`, matches expected
value `"AB"` case-insensitively, and mismatches `"cd"` with a message
naming both strings. -/
theorem c6_witness :
    run_verify [171] [9] (some "AB") (some "ff") = verify_sha256 [171] "AB" ∧
    isLowerHexChar 'a' ∧
    verify_sha256 [171] "AB" = Except.ok () ∧
    (∃ pre mid, verify_sha256 [171] "cd"
      = Except.error (pre ++ "cd" ++ mid ++ hexEncode [171])) :=
  ⟨c6_checksum.1 [171] [9] "AB" "ff",
   c6_checksum.2.1 [171] 'a' (by decide),
   (c6_checksum.2.2.1 [171] "AB").mpr (by decide),
   c6_checksum.2.2.2 [171] "cd" (by decide)⟩

/-! ## Speed and progress reporting (C8) -/

/-- Modelled from the spec: `progress = min(100, totalDownloaded /
totalSize × 100)` and `0 if total size unknown` (spec §4.2), for
comparison with `report_progress`. -/
def specProgress (total_downloaded total_size : Nat) : ℚ :=
  if total_size = 0 then 0
  else min 100 ((total_downloaded : ℚ) / (total_size : ℚ) * 100)

/-- C8 counterexample: on a buffer received less than one millisecond into
the transfer the code clamps the elapsed time to 0.001 s, so the reported
speed is not session bytes divided by the true elapsed time: at
elapsed = 1/2000 s and 1000 session bytes it reports 1,000,000 B/s while
the claim's formula gives 2,000,000 B/s. -/
theorem c8_cex :
    report_speed 1000 0 (1 / 2000) = 1000000 ∧
    specSpeed 1000 0 (1 / 2000) = 2000000 ∧
    (report_speed 1000 0 (1 / 2000) : ℚ) ≠ specSpeed 1000 0 (1 / 2000) := by
  have hm : max (1 / 2000 : ℚ) (1 / 1000) = 1 / 1000 := by
    rw [max_eq_right]
    norm_num
  have h1 : report_speed 1000 0 (1 / 2000) = 1000000 := by
    simp only [report_speed, hm]
    norm_num
    rfl
  have h2 : specSpeed 1000 0 (1 / 2000) = 2000000 := by
    norm_num [specSpeed]
  refine ⟨h1, h2, ?_⟩
  rw [h1, h2]
  norm_num

/-- C8 (amended): whenever at least one millisecond has elapsed the
reported speed is the integer part of (total downloaded − resume offset)
divided by the elapsed seconds, exactly the claim's formula (below one
millisecond the divisor is clamped to 0.001 s); the reported progress
always equals the claim's formula. -/
theorem c8_speed_progress (td ro ts : Nat) (el : ℚ)
    (hro : ro ≤ td) (hel : (1 / 1000 : ℚ) ≤ el) :
    report_speed td ro el = (⌊specSpeed td ro el⌋).toNat ∧
    report_progress td ts = specProgress td ts := by
  constructor
  · have hm : max el (1 / 1000 : ℚ) = el := max_eq_left hel
    simp only [report_speed, hm, specSpeed]
    rw [Nat.cast_sub hro]
  · by_cases h : ts = 0
    · simp [report_progress, specProgress, h]
    · have hpos : 0 < ts := Nat.pos_of_ne_zero h
      simp [report_progress, specProgress, h, hpos, min_comm]

/-- C8 witness: 6 session bytes over 2 s report speed 3 B/s, and 10 of 20
bytes report progress 50. -/
theorem c8_witness :
    report_speed 10 4 2 = (⌊specSpeed 10 4 2⌋).toNat ∧
    report_progress 10 20 = specProgress 10 20 :=
  c8_speed_progress 10 4 20 2 (by norm_num) (by norm_num)

/-! ## Resume request and destination-file effect (C1) -/

/-- The task of C1's scenario as `create_task` builds it: total size 4,
destination `/tmp/f`. -/
def c1CreatedTask : DownloadTask :=
  create_task_record "g" "n" "u" "/tmp/f" 4 none none "t" 0

/-- The same task after `start_task` found 2 bytes already on disk. -/
def c1ResumedTask : DownloadTask :=
  start_task_reconcile c1CreatedTask (some 2)

/-- The chunk `download_chunk` receives in that scenario: full range
`[0, 3]`, resume offset 2. -/
def c1ResumedChunk : DownloadChunk :=
  { id := 0, url := "u", start := 0, end_ := 3, downloaded := 2,
    completed := false }

/-- C1, evaluated at the failing input: resuming with `k = 2` of
`totalSize = 4` on disk does issue a range request beginning at 2 (and a
fresh transfer omits the header), and the final file length is 4; but the
`truncate(true)` open empties the file first, so the previously downloaded
bytes `[7, 7]` are rewritten to zeros — the destination ends as
`[0, 0, 5, 6]`, not `[7, 7, 5, 6]`. -/
theorem c1_truncate_bug :
    c1ResumedTask.chunks = [c1ResumedChunk] ∧
    chunk_request c1ResumedChunk = ChunkRequest.get (some (2, 3)) ∧
    chunk_request { c1ResumedChunk with downloaded := 0 }
      = ChunkRequest.get none ∧
    download_chunk_file [7, 7] c1ResumedChunk [[5, 6]] = [0, 0, 5, 6] ∧
    (download_chunk_file [7, 7] c1ResumedChunk [[5, 6]]).take 2 ≠ [7, 7] ∧
    (download_chunk_file [7, 7] c1ResumedChunk [[5, 6]]).length = 4 := by
  refine ⟨?_, ?_, ?_, ?_, ?_, ?_⟩ <;> decide

/-! ## Concurrency model (C2)

Abstraction of the manager's concurrent behaviour around the semaphore
(manager.rs lines 250-356 and 594-619): task statuses, the pool of
available permits, and one worker per spawned transfer.  A worker is
`waiting` between `tokio::spawn` and `semaphore.acquire()` returning, and
`running` from permit acquisition until it finishes or is aborted. -/

/-- Phase of a spawned transfer worker. -/
inductive WorkerPhase where
  | waiting
  | running
  deriving DecidableEq, Repr

/-- The status table restricted to what C2 needs (`HashMap<String,
DownloadTask>` projected to statuses). -/
def StatusMap := List (String × DownloadStatus)

instance : DecidableEq StatusMap := by
  unfold StatusMap
  infer_instance

instance : Repr StatusMap := by
  unfold StatusMap
  infer_instance

def lookupStatus : StatusMap → String → Option DownloadStatus
  | [], _ => none
  | (i, s) :: rest, id => if i = id then some s else lookupStatus rest id

/-- `HashMap::insert` on the status table. -/
def insertStatus : StatusMap → String → DownloadStatus → StatusMap
  | [], id, s => [(id, s)]
  | (i, u) :: rest, id, s =>
    if i = id then (i, s) :: rest else (i, u) :: insertStatus rest id s

/-- `get_mut` + assignment on the status table; no-op when absent. -/
def setStatus : StatusMap → String → DownloadStatus → StatusMap
  | [], _, _ => []
  | (i, u) :: rest, id, s =>
    if i = id then (i, s) :: rest else (i, u) :: setStatus rest id s

/-- `HashMap::remove` on the status table. -/
def eraseStatus : StatusMap → String → StatusMap
  | [], _ => []
  | (i, u) :: rest, id => if i = id then rest else (i, u) :: eraseStatus rest id

/-- Manager state for the concurrency model: the configured limit, the
semaphore's free permits, the task statuses, and the spawned workers. -/
structure MgrState where
  maxConcurrent : Nat
  availablePermits : Nat
  statuses : StatusMap
  workers : List (String × WorkerPhase)
  deriving DecidableEq, Repr

/-- The state right after `DownloadManager::new(max_concurrent, ..)`
(manager.rs lines 99-105): all permits free, no tasks, no workers. -/
def initState (n : Nat) : MgrState :=
  { maxConcurrent := n, availablePermits := n, statuses := [], workers := [] }

/-- `create_task` inserts a Pending task (manager.rs lines 232, 240). -/
def createStep (s : MgrState) (id : String) : MgrState :=
  { s with statuses := insertStatus s.statuses id DownloadStatus.pending }

/-- The synchronous part of `start_task` (manager.rs lines 250-356): if the
task exists, its status is set to Downloading at once and a worker is
spawned; the worker begins waiting on the semaphore.  On an unknown id
`start_task` errors without changing state. -/
def startStep (s : MgrState) (id : String) : MgrState :=
  match lookupStatus s.statuses id with
  | none => s
  | some _ =>
    { s with statuses := setStatus s.statuses id DownloadStatus.downloading,
             workers := (id, WorkerPhase.waiting) :: s.workers }

/-- Moves the first waiting worker with the given id to `running`. -/
def acquireFirst : List (String × WorkerPhase) → String →
    List (String × WorkerPhase)
  | [], _ => []
  | (i, p) :: ws, id =>
    if i = id ∧ p = WorkerPhase.waiting then (i, WorkerPhase.running) :: ws
    else (i, p) :: acquireFirst ws id

/-- `semaphore.acquire()` returning inside the spawned block (manager.rs
lines 313-320): only possible while a permit is free and the worker is
still waiting; one permit is taken. -/
def acquireStep (s : MgrState) (id : String) : MgrState :=
  if 0 < s.availablePermits ∧ (id, WorkerPhase.waiting) ∈ s.workers then
    { s with workers := acquireFirst s.workers id,
             availablePermits := s.availablePermits - 1 }
  else s

/-- Removes the first running worker with the given id. -/
def removeFirstRunning : List (String × WorkerPhase) → String →
    List (String × WorkerPhase)
  | [], _ => []
  | (i, p) :: ws, id =>
    if i = id ∧ p = WorkerPhase.running then ws
    else (i, p) :: removeFirstRunning ws id

/-- The end of the spawned block (manager.rs lines 322-352): the transfer
finished or failed, the final status is recorded, and dropping `_permit`
returns it to the semaphore. -/
def finishStep (s : MgrState) (id : String) (ok : Bool) : MgrState :=
  if (id, WorkerPhase.running) ∈ s.workers then
    { s with workers := removeFirstRunning s.workers id,
             availablePermits := s.availablePermits + 1,
             statuses := setStatus s.statuses id
               (if ok then DownloadStatus.completed else DownloadStatus.error) }
  else s

/-- Phase of the first worker with the given id, if any. -/
def findWorkerPhase : List (String × WorkerPhase) → String →
    Option WorkerPhase
  | [], _ => none
  | (i, p) :: ws, id => if i = id then some p else findWorkerPhase ws id

/-- Removes the first worker with the given id regardless of phase. -/
def removeFirstWorker : List (String × WorkerPhase) → String →
    List (String × WorkerPhase)
  | [], _ => []
  | (i, p) :: ws, id => if i = id then ws else (i, p) :: removeFirstWorker ws id

/-- `handle.abort()` (manager.rs lines 596-598 and 611-613): the worker
disappears; if it was running its permit is dropped back to the
semaphore, and a still-waiting worker held no permit. -/
def abortWorker (s : MgrState) (id : String) : MgrState :=
  match findWorkerPhase s.workers id with
  | none => s
  | some p =>
    { s with workers := removeFirstWorker s.workers id,
             availablePermits :=
               if p = WorkerPhase.running then s.availablePermits + 1
               else s.availablePermits }

/-- `pause_task` (manager.rs lines 594-607) in the concurrency model. -/
def pauseStep (s : MgrState) (id : String) : MgrState :=
  let s := abortWorker s id
  { s with statuses := setStatus s.statuses id DownloadStatus.paused }

/-- `cancel_task` (manager.rs lines 609-619) in the concurrency model. -/
def cancelStep (s : MgrState) (id : String) : MgrState :=
  let s := abortWorker s id
  { s with statuses := eraseStatus s.statuses id }

/-- The reachable manager states: everything generated from `initState n`
by the six events. -/
inductive Reach (n : Nat) : MgrState → Prop where
  | init : Reach n (initState n)
  | create (s : MgrState) (id : String) : Reach n s → Reach n (createStep s id)
  | start (s : MgrState) (id : String) : Reach n s → Reach n (startStep s id)
  | acquire (s : MgrState) (id : String) :
      Reach n s → Reach n (acquireStep s id)
  | finish (s : MgrState) (id : String) (ok : Bool) :
      Reach n s → Reach n (finishStep s id ok)
  | pause (s : MgrState) (id : String) : Reach n s → Reach n (pauseStep s id)
  | cancel (s : MgrState) (id : String) :
      Reach n s → Reach n (cancelStep s id)

/-- Number of workers currently holding a permit (mid-transfer). -/
def countRunning (s : MgrState) : Nat :=
  s.workers.countP (fun w => w.2 = WorkerPhase.running)

/-- Number of tasks whose status field reads Downloading. -/
def countDownloading (s : MgrState) : Nat :=
  s.statuses.countP (fun p => p.2 = DownloadStatus.downloading)

/-! ## Counting lemmas for the concurrency model -/

theorem countP_acquireFirst (ws : List (String × WorkerPhase)) (id : String)
    (h : (id, WorkerPhase.waiting) ∈ ws) :
    (acquireFirst ws id).countP (fun w => w.2 = WorkerPhase.running)
      = ws.countP (fun w => w.2 = WorkerPhase.running) + 1 := by
  induction ws with
  | nil => cases h
  | cons w ws ih =>
    obtain ⟨i, p⟩ := w
    by_cases hc : i = id ∧ p = WorkerPhase.waiting
    · obtain ⟨rfl, rfl⟩ := hc
      simp [acquireFirst, List.countP_cons]
    · have h' : (id, WorkerPhase.waiting) ∈ ws := by
        rcases List.mem_cons.mp h with heq | hmem
        · exfalso
          injection heq with h1 h2
          exact hc ⟨h1.symm, h2.symm⟩
        · exact hmem
      simp only [acquireFirst, hc, if_false, List.countP_cons, ih h']
      omega

theorem countP_removeFirstRunning (ws : List (String × WorkerPhase))
    (id : String) (h : (id, WorkerPhase.running) ∈ ws) :
    ws.countP (fun w => w.2 = WorkerPhase.running)
      = (removeFirstRunning ws id).countP
          (fun w => w.2 = WorkerPhase.running) + 1 := by
  induction ws with
  | nil => cases h
  | cons w ws ih =>
    obtain ⟨i, p⟩ := w
    by_cases hc : i = id ∧ p = WorkerPhase.running
    · obtain ⟨rfl, rfl⟩ := hc
      simp [removeFirstRunning, List.countP_cons]
    · have h' : (id, WorkerPhase.running) ∈ ws := by
        rcases List.mem_cons.mp h with heq | hmem
        · exfalso
          injection heq with h1 h2
          exact hc ⟨h1.symm, h2.symm⟩
        · exact hmem
      simp only [removeFirstRunning, hc, if_false, List.countP_cons, ih h']
      omega

theorem countP_removeFirstWorker (ws : List (String × WorkerPhase))
    (id : String) (p : WorkerPhase) (h : findWorkerPhase ws id = some p) :
    ws.countP (fun w => w.2 = WorkerPhase.running)
      = (removeFirstWorker ws id).countP
          (fun w => w.2 = WorkerPhase.running)
        + (if p = WorkerPhase.running then 1 else 0) := by
  induction ws with
  | nil => simp [findWorkerPhase] at h
  | cons w ws ih =>
    obtain ⟨i, q⟩ := w
    by_cases hc : i = id
    · simp only [findWorkerPhase, hc, if_true] at h
      have hq : q = p := by injection h
      subst hq
      simp only [removeFirstWorker, hc, if_true, List.countP_cons]
      by_cases hq2 : q = WorkerPhase.running <;> simp [hq2]
    · simp only [findWorkerPhase, hc, if_false] at h
      simp only [removeFirstWorker, hc, if_false, List.countP_cons, ih h]
      omega

theorem abortWorker_sum (s : MgrState) (id : String) :
    countRunning (abortWorker s id) + (abortWorker s id).availablePermits
      = countRunning s + s.availablePermits := by
  cases hf : findWorkerPhase s.workers id with
  | none => simp [abortWorker, hf]
  | some p =>
    have hrem := countP_removeFirstWorker s.workers id p hf
    by_cases hp : p = WorkerPhase.running
    · subst hp
      simp [abortWorker, hf, countRunning] at hrem ⊢
      omega
    · simp [abortWorker, hf, countRunning, hp] at hrem ⊢
      omega

/-- Permit-accounting invariant of the concurrency model: in every
reachable state the number of running workers plus the free permits equals
the configured limit. -/
theorem reach_permit_sum (n : Nat) (s : MgrState) (h : Reach n s) :
    countRunning s + s.availablePermits = n := by
  induction h with
  | init => simp [initState, countRunning]
  | create s id _ ih => simpa [createStep, countRunning] using ih
  | start s id _ ih =>
    unfold startStep
    cases hl : lookupStatus s.statuses id with
    | none => exact ih
    | some st => simpa [countRunning, List.countP_cons] using ih
  | acquire s id _ ih =>
    by_cases hc : 0 < s.availablePermits ∧ (id, WorkerPhase.waiting) ∈ s.workers
    · have hacq := countP_acquireFirst s.workers id hc.2
      have hpos := hc.1
      simp only [acquireStep, if_pos hc, countRunning] at *
      omega
    · simp only [acquireStep, if_neg hc]
      exact ih
  | finish s id ok _ ih =>
    by_cases hc : (id, WorkerPhase.running) ∈ s.workers
    · have hrem := countP_removeFirstRunning s.workers id hc
      simp only [finishStep, if_pos hc, countRunning] at *
      omega
    · simp only [finishStep, if_neg hc]
      exact ih
  | pause s id _ ih =>
    have h1 : countRunning (pauseStep s id) = countRunning (abortWorker s id) :=
      rfl
    have h2 : (pauseStep s id).availablePermits
        = (abortWorker s id).availablePermits := rfl
    rw [h1, h2, abortWorker_sum]
    exact ih
  | cancel s id _ ih =>
    have h1 : countRunning (cancelStep s id) = countRunning (abortWorker s id) :=
      rfl
    have h2 : (cancelStep s id).availablePermits
        = (abortWorker s id).availablePermits := rfl
    rw [h1, h2, abortWorker_sum]
    exact ih

/-- A reachable state with a limiter of size 1: two tasks created and both
started, neither worker having acquired a permit yet. -/
def twoStartedState : MgrState :=
  startStep (startStep (createStep (createStep (initState 1) "a") "b") "a") "b"

/-- C2 counterexample: with a limiter of size N = 1, starting two tasks
reaches a state in which both report status Downloading — `start_task`
sets the status before the worker acquires a permit (manager.rs line 255
versus line 313), so more than N tasks can be Downloading at once. -/
theorem c2_cex :
    Reach 1 twoStartedState ∧
    twoStartedState.maxConcurrent = 1 ∧
    countDownloading twoStartedState = 2 ∧
    countRunning twoStartedState = 0 := by
  refine ⟨?_, by decide, by decide, by decide⟩
  exact Reach.start _ "b" (Reach.start _ "a"
    (Reach.create _ "b" (Reach.create _ "a" Reach.init)))

/-- C2 (amended): with a limiter of size N, at no reachable point do more
than N workers hold permits — no more than N tasks are ever mid-transfer.
The status field, however, is set to Downloading synchronously in
`start_task` before the permit is acquired, so more than N tasks may
report status Downloading while their workers wait. -/
theorem c2_bounded_running (n : Nat) (s : MgrState) (h : Reach n s) :
    countRunning s ≤ n := by
  have hsum := reach_permit_sum n s h
  omega

/-- C2 witness: the bound applied to the concrete reachable state of the
counterexample's scenario. -/
theorem c2_witness : countRunning twoStartedState ≤ 1 :=
  c2_bounded_running 1 twoStartedState
    (Reach.start _ "b" (Reach.start _ "a"
      (Reach.create _ "b" (Reach.create _ "a" Reach.init))))
